import Mathlib

set_option linter.unusedVariables false

/-!
Verification of the ghbackup core (`main.go`): a shallow embedding of
`runApp` and its collaborators (GitHub client, command runner, filesystem
primitives), over which the specification's claims are settled.
-/

namespace GhBackup

/-! ## Path cleaning (port of Go `path/filepath.Clean` / `Join`, Unix rules)

`backupPath := filepath.Join(app.BackupFolder, repoFullName+".git")`
(main.go line 135) uses Go's lexical path cleaning.  We port `Clean` in a
segment/stack form: split on `/`, drop empty and `.` segments, let `..`
pop, re-join, with rooted paths keeping their leading `/`.
-/

/-- Split a character list into its `/`-separated segments.
`cur` is the (reversed) segment accumulated so far. -/
def segsAux : List Char → List Char → List (List Char)
  | [], cur => [cur.reverse]
  | c :: rest, cur =>
    if c = '/' then cur.reverse :: segsAux rest []
    else segsAux rest (c :: cur)

def splitSegs (l : List Char) : List (List Char) := segsAux l []

/-- Re-join segments with `/`. -/
def joinSegs : List (List Char) → List Char
  | [] => []
  | [s] => s
  | s :: s₂ :: rest => s ++ '/' :: joinSegs (s₂ :: rest)

/-- One step of Go `Clean`'s element processing: skip empty and `.`,
let `..` pop the last real element (or accumulate when unpoppable and
not rooted), push everything else.  `acc` holds output segments in
reverse order. -/
def stepSeg (rooted : Bool) (acc : List (List Char)) (seg : List Char) : List (List Char) :=
  if seg = [] ∨ seg = ['.'] then acc
  else if seg = ['.', '.'] then
    match acc with
    | [] => if rooted then [] else [['.', '.']]
    | top :: rest => if top = ['.', '.'] then ['.', '.'] :: acc else rest
  else seg :: acc

def cleanChars (l : List Char) : List Char :=
  if l = [] then ['.']
  else if l.head? = some '/' then
    '/' :: joinSegs (((splitSegs l).foldl (stepSeg true) []).reverse)
  else if joinSegs (((splitSegs l).foldl (stepSeg false) []).reverse) = [] then ['.']
  else joinSegs (((splitSegs l).foldl (stepSeg false) []).reverse)

def clean (s : String) : String := ⟨cleanChars s.data⟩

/-- Go `filepath.Join` restricted to two elements: empty elements are
dropped, the rest are joined with `/` and cleaned. -/
def joinPath (a b : String) : String :=
  if a = "" then (if b = "" then "" else clean b)
  else if b = "" then clean a
  else clean (a ++ "/" ++ b)

/-- A segment that `Clean` passes through untouched: nonempty, not `.`,
not `..`, and (for use on raw strings) slash-free. -/
def okSeg (s : List Char) : Bool :=
  !s.isEmpty && !(s == ['.']) && !(s == ['.', '.']) && !(s.contains '/')

/-- A relative path all of whose segments are untouched by `Clean`. -/
def goodRel (s : String) : Bool := (splitSegs s.data).all okSeg

/-- An absolute path whose segments after the leading `/` are untouched. -/
def goodAbs (s : String) : Bool :=
  s.data.head? == some '/' && (splitSegs s.data.tail).all okSeg

def goodPath (s : String) : Bool := goodRel s || goodAbs s

/-! ## Substring containment (used to state the credential claims) -/

/-- `hasSubAux pat l`: `pat` occurs as a contiguous run inside `l`. -/
def hasSubAux (pat : List Char) : List Char → Bool
  | [] => pat.isEmpty
  | c :: rest => pat.isPrefixOf (c :: rest) || hasSubAux pat rest

/-- `strHasSub s pat`: `pat` occurs as a substring of `s`. -/
def strHasSub (s pat : String) : Bool := hasSubAux pat.data s.data

/-! ## Data model (main.go)

A repository record carries the full qualified name and the short name
(`repo.FullName`, `repo.Name`); only the full name is used by `runApp`. -/

structure Repo where
  fullName : String
  name : String
deriving DecidableEq, Repr

/-- Result of the injected `Stat` call as `runApp` discriminates it
(main.go lines 137/169/209): `os.IsNotExist(err)`, `err == nil`,
or any other error. -/
inductive StatRes where
  | notExists
  | found
  | otherErr
deriving DecidableEq, Repr

/-- Observable calls `runApp` makes to its injected dependencies, in order:
commands via `CommandRunner.Run` / `CommandRunner.RunAndOutput`, the two
GitHub API operations, and the filesystem primitives. -/
inductive Event where
  | mkdirCall (path : String)
  | runCmd (dir name : String) (args : List String)
  | runOutCmd (dir name : String) (args : List String)
  | userCall
  | listCall (page perPage : Nat)
  | statCall (path : String)
  | getwdCall
  | chdirCall (dir : String)
deriving DecidableEq, Repr

/-- The environment scripts the outcome of every injected dependency:
each field mirrors one `App` field of main.go.  `run` returns the
combined output together with an optional error, `runOut` only an
optional error, matching the two `CommandRunner` methods. -/
structure Env where
  mkdirErr : String → Option String
  run : String → String → List String → String × Option String
  runOut : String → String → List String → Option String
  statRes : String → StatRes
  getwdErr : Option String
  chdirErr : String → Option String
  getUser : Except String String
  listRepos : Nat → Except String (List Repo × Nat)

/-- Process state: the current working directory (`os.Getwd`/`os.Chdir`),
the `origin` remote URL persisted in each mirror's git config (updated by
a successful `git clone` or `git remote set-url origin`), and the trace
of dependency calls. -/
structure St where
  cwd : String
  remotes : List (String × String)
  trace : List Event
deriving DecidableEq, Repr

def emit (st : St) (e : Event) : St := { st with trace := st.trace ++ [e] }

/-- Git semantics of a successful clone or `remote set-url`: the mirror at
`path` now has `url` as its `origin` remote URL. -/
def setRemote (st : St) (path url : String) : St :=
  { st with remotes := (path, url) :: st.remotes }

/-- The `origin` remote URL currently stored in the mirror at `path`. -/
def getRemote (st : St) (path : String) : Option String :=
  st.remotes.lookup path

/-! ## URL and path construction (main.go lines 133-135) -/

/-- `fmt.Sprintf("https://%s:%s@github.com/%s.git", username, token, fullName)` -/
def authCloneURL (username token fullName : String) : String :=
  "https://" ++ username ++ ":" ++ token ++ "@github.com/" ++ fullName ++ ".git"

/-- `fmt.Sprintf("https://github.com/%s.git", fullName)` -/
def unauthCloneURL (fullName : String) : String :=
  "https://github.com/" ++ fullName ++ ".git"

/-- `filepath.Join(app.BackupFolder, repoFullName+".git")` -/
def backupPathOf (backupFolder fullName : String) : String :=
  joinPath backupFolder (fullName ++ ".git")

/-! ## The per-repository synchronizer (main.go lines 128-214) -/

def cloneArgsOf (authURL path : String) : List String :=
  ["clone", "--mirror", "--no-checkout", "--progress", authURL, path]

def lfsArgs : List String := ["lfs", "fetch", "--all"]

def setUrlArgs (url : String) : List String := ["remote", "set-url", "origin", url]

def updArgs : List String := ["remote", "update"]

/-- `app.Chdir(originalWd)` at the end of a repository's processing
(main.go lines 165-167, 184-186, 206-208): on failure only a log line is
produced and the working directory stays where it was. -/
def finishChdirBack (env : Env) (st : St) (originalWd : String) : St :=
  let st := emit st (.chdirCall originalWd)
  match env.chdirErr originalWd with
  | some _ => st
  | none => { st with cwd := originalWd }

/-- One iteration of the repository loop (main.go lines 128-214),
from the `Stat` existence probe to the end of the iteration.  Never
returns an error: every failure only ends the iteration early. -/
def processRepo (env : Env) (token backupFolder username : String) (st : St) (repo : Repo) : St :=
  let fullName := repo.fullName
  let authURL := authCloneURL username token fullName
  let unauthURL := unauthCloneURL fullName
  let path := backupPathOf backupFolder fullName
  let st := emit st (.statCall path)
  match env.statRes path with
  | .notExists =>
    -- clone branch (lines 137-167)
    let st := emit st (.runOutCmd "" "git" (cloneArgsOf authURL path))
    match env.runOut "" "git" (cloneArgsOf authURL path) with
    | some _ => st
    | none =>
      let st := setRemote st path authURL
      let st := emit st .getwdCall
      match env.getwdErr with
      | some _ => st
      | none =>
        let originalWd := st.cwd
        let st := emit st (.chdirCall path)
        match env.chdirErr path with
        | some _ => st
        | none =>
          let st := { st with cwd := path }
          let st := emit st (.runOutCmd path "git" lfsArgs)
          let st := emit st (.runCmd path "git" (setUrlArgs unauthURL))
          let st := if (env.run path "git" (setUrlArgs unauthURL)).2 = none
            then setRemote st path unauthURL else st
          finishChdirBack env st originalWd
  | .found =>
    -- update branch (lines 169-208)
    let st := emit st .getwdCall
    match env.getwdErr with
    | some _ => st
    | none =>
      let originalWd := st.cwd
      let st := emit st (.chdirCall path)
      match env.chdirErr path with
      | some _ => st
      | none =>
        let st := { st with cwd := path }
        let st := emit st (.runCmd path "git" (setUrlArgs authURL))
        match (env.run path "git" (setUrlArgs authURL)).2 with
        | some _ => finishChdirBack env st originalWd
        | none =>
          let st := setRemote st path authURL
          let st := emit st (.runOutCmd path "git" updArgs)
          let st := emit st (.runOutCmd path "git" lfsArgs)
          let st := emit st (.runCmd path "git" (setUrlArgs unauthURL))
          let st := if (env.run path "git" (setUrlArgs unauthURL)).2 = none
            then setRemote st path unauthURL else st
          finishChdirBack env st originalWd
  | .otherErr => st

/-! ## The repository lister (main.go lines 109-124) -/

/-- The pagination loop: request the current page (page size 100), append
the results, stop when `resp.NextPage == 0`, otherwise continue at
`resp.NextPage`.  The Go loop is unbounded; `fuel` bounds the recursion
and is a modelling artifact only (claims supply enough of it). -/
def fetchAll (env : Env) : Nat → Nat → List Repo → St → St × Except String (List Repo)
  | 0, _, _, st => (st, .error "model: pagination fuel exhausted")
  | fuel + 1, page, acc, st =>
    let st := emit st (.listCall page 100)
    match env.listRepos page with
    | .error e => (st, .error ("Error listing repositories: " ++ e))
    | .ok (repos, next) =>
      if next = 0 then (st, .ok (acc ++ repos))
      else fetchAll env fuel next (acc ++ repos) st

/-! ## The run (main.go lines 84-218) -/

def gcArgs : List String := ["config", "--global", "--add", "safe.directory", "*"]

/-- `(app *App) runApp(ctx)`: the whole run. -/
def runApp (env : Env) (fuel : Nat) (token backupFolder : String) (st : St) :
    St × Except String Unit :=
  if token = "" then
    (st, .error "Error: GITHUB_SECRET environment variable is not set.")
  else
    let folder := if backupFolder = "" then "/ghbackup" else backupFolder
    let st := emit st (.mkdirCall folder)
    match env.mkdirErr folder with
    | some e => (st, .error ("Error creating backup folder " ++ folder ++ ": " ++ e))
    | none =>
      let st := emit st (.runCmd "" "git" gcArgs)
      match env.run "" "git" gcArgs with
      | (out, some e) =>
        (st, .error ("Error setting global git config: " ++ e ++ "\nOutput: " ++ out))
      | (_, none) =>
        let st := emit st .userCall
        match env.getUser with
        | .error e => (st, .error ("Error getting authenticated user: " ++ e))
        | .ok username =>
          match fetchAll env fuel 0 [] st with
          | (st, .error e) => (st, .error e)
          | (st, .ok allRepos) =>
            (allRepos.foldl (processRepo env token folder username) st, .ok ())

/-! ## Command-trace denotation

`repoCmds` states, per branch of the synchronizer, which external commands
one repository's iteration issues; `processRepo_cmds` proves it against
`processRepo`. -/

def isCmd : Event → Bool
  | .mkdirCall _ => false
  | .runCmd _ _ _ => true
  | .runOutCmd _ _ _ => true
  | .userCall => false
  | .listCall _ _ => false
  | .statCall _ => false
  | .getwdCall => false
  | .chdirCall _ => false

/-- The external commands in a trace, in order. -/
def cmdEvents (l : List Event) : List Event := l.filter isCmd

/-- The command sequence one repository's iteration issues, by branch. -/
def repoCmds (env : Env) (token backupFolder username : String) (repo : Repo) : List Event :=
  let authURL := authCloneURL username token repo.fullName
  let unauthURL := unauthCloneURL repo.fullName
  let path := backupPathOf backupFolder repo.fullName
  match env.statRes path with
  | .notExists =>
    Event.runOutCmd "" "git" (cloneArgsOf authURL path) ::
      (match env.runOut "" "git" (cloneArgsOf authURL path) with
       | some _ => []
       | none =>
         match env.getwdErr with
         | some _ => []
         | none =>
           match env.chdirErr path with
           | some _ => []
           | none => [Event.runOutCmd path "git" lfsArgs,
                      Event.runCmd path "git" (setUrlArgs unauthURL)])
  | .found =>
    match env.getwdErr with
    | some _ => []
    | none =>
      match env.chdirErr path with
      | some _ => []
      | none =>
        Event.runCmd path "git" (setUrlArgs authURL) ::
          (match (env.run path "git" (setUrlArgs authURL)).2 with
           | some _ => []
           | none => [Event.runOutCmd path "git" updArgs,
                      Event.runOutCmd path "git" lfsArgs,
                      Event.runCmd path "git" (setUrlArgs unauthURL)])
  | .otherErr => []

/-! ## Pagination chains -/

/-- A terminating pagination dialogue: starting at page `p`, the server
returns the listed pages in order and the last response carries
`NextPage == 0`. -/
inductive Chain (env : Env) : Nat → List (Nat × List Repo) → Prop
  | single {p : Nat} {l : List Repo} :
      env.listRepos p = .ok (l, 0) → Chain env p [(p, l)]
  | more {p nxt : Nat} {l : List Repo} {rest : List (Nat × List Repo)} :
      env.listRepos p = .ok (l, nxt) → nxt ≠ 0 → Chain env nxt rest →
      Chain env p ((p, l) :: rest)

/-- A pagination dialogue that fails: the pages in `ps` are requested in
order and the last request returns the error `e`. -/
inductive ErrAt (env : Env) : Nat → List Nat → String → Prop
  | here {p : Nat} {e : String} :
      env.listRepos p = .error e → ErrAt env p [p] e
  | more {p nxt : Nat} {l : List Repo} {ps : List Nat} {e : String} :
      env.listRepos p = .ok (l, nxt) → nxt ≠ 0 → ErrAt env nxt ps e →
      ErrAt env p (p :: ps) e

/-! ## Concrete instances used to witness the theorems -/

def repoA : Repo := ⟨"testuser/repo1", "repo1"⟩

def repoB : Repo := ⟨"testuser/repo2", "repo2"⟩

def st0 : St := ⟨"/app", [], []⟩

/-- An environment where every dependency succeeds and no mirror exists. -/
def envOkClone : Env where
  mkdirErr := fun _ => none
  run := fun _ _ _ => ("", none)
  runOut := fun _ _ _ => none
  statRes := fun _ => .notExists
  getwdErr := none
  chdirErr := fun _ => none
  getUser := .ok "testuser"
  listRepos := fun _ => .ok ([repoA], 0)

/-- Like `envOkClone` but the mirror already exists. -/
def envOkUpd : Env := { envOkClone with statRes := fun _ => .found }

/-- Like `envOkClone` but `Getwd` fails. -/
def envGetwdFail : Env := { envOkClone with getwdErr := some "getwd failed" }

/-- Like `envOkClone` but the identity lookup fails. -/
def envUserFail : Env := { envOkClone with getUser := .error "failed to get user" }

/-- Like `envOkClone` but repository listing fails. -/
def envListFail : Env :=
  { envOkClone with listRepos := fun _ => .error "failed to list repos" }

/-- Two pages: page 0 holds `repoA` and points at page 2, which holds
`repoB` and terminates. -/
def envTwoPages : Env :=
  { envOkClone with listRepos := fun p =>
      if p = 0 then .ok ([repoA], 2) else .ok ([repoB], 0) }

/-- Both repositories listed; `repoA`'s clone fails, everything else
succeeds. -/
def envCloneAFails : Env :=
  { envOkClone with
    listRepos := fun _ => .ok ([repoA, repoB], 0),
    runOut := fun _ _ args =>
      if args = cloneArgsOf (authCloneURL "testuser" "tok" repoA.fullName)
          (backupPathOf "/b" repoA.fullName) then some "clone failed" else none }

/-! ## Theorems -/

/-! ### Lemmas: `Clean` is the identity on good paths -/

theorem okSeg_spec {s : List Char} (h : okSeg s = true) :
    ¬(s = [] ∨ s = ['.']) ∧ s ≠ ['.', '.'] ∧ s.contains '/' = false := by
  unfold okSeg at h
  refine ⟨?_, ?_, ?_⟩
  · rintro (rfl | rfl) <;> simp at h
  · rintro rfl; simp at h
  · cases hc : s.contains '/'
    · rfl
    · rw [hc] at h; simp at h

theorem segsAux_ne_nil (l cur : List Char) : segsAux l cur ≠ [] := by
  induction l generalizing cur with
  | nil => simp [segsAux]
  | cons c rest ih =>
    simp only [segsAux]
    split
    · simp
    · exact ih _

theorem joinSegs_segsAux (l cur : List Char) :
    joinSegs (segsAux l cur) = cur.reverse ++ l := by
  induction l generalizing cur with
  | nil => simp [segsAux, joinSegs]
  | cons c rest ih =>
    simp only [segsAux]
    split
    · rename_i hc
      subst hc
      cases hs : segsAux rest [] with
      | nil => exact absurd hs (segsAux_ne_nil rest [])
      | cons a t =>
        have hrest : joinSegs (a :: t) = rest := by
          rw [← hs, ih]; simp
        show cur.reverse ++ '/' :: joinSegs (a :: t) = cur.reverse ++ '/' :: rest
        rw [hrest]
    · rw [ih (c :: cur)]
      simp

theorem segsAux_append_slash (a b cur : List Char) :
    segsAux (a ++ '/' :: b) cur = segsAux a cur ++ segsAux b [] := by
  induction a generalizing cur with
  | nil => simp [segsAux]
  | cons c rest ih =>
    simp only [List.cons_append, segsAux]
    split
    · simp [ih]
    · exact ih _

theorem foldl_stepSeg_ok (rooted : Bool) (segs : List (List Char)) (acc : List (List Char))
    (h : segs.all okSeg) : segs.foldl (stepSeg rooted) acc = segs.reverse ++ acc := by
  induction segs generalizing acc with
  | nil => simp
  | cons s rest ih =>
    simp only [List.all_cons, Bool.and_eq_true] at h
    obtain ⟨hs, hrest⟩ := h
    obtain ⟨h1, h2, _⟩ := okSeg_spec hs
    simp only [List.foldl_cons, stepSeg, if_neg h1, if_neg h2]
    rw [ih _ hrest]
    simp

theorem joinSegs_append (x y : List (List Char)) (hx : x ≠ []) (hy : y ≠ []) :
    joinSegs (x ++ y) = joinSegs x ++ '/' :: joinSegs y := by
  induction x with
  | nil => exact absurd rfl hx
  | cons s rest ih =>
    cases rest with
    | nil =>
      cases y with
      | nil => exact absurd rfl hy
      | cons a t =>
        show joinSegs (s :: a :: t) = s ++ '/' :: joinSegs (a :: t)
        rfl
    | cons s₂ rest₂ =>
      have h := ih (by simp)
      show s ++ '/' :: joinSegs ((s₂ :: rest₂) ++ y)
        = (s ++ '/' :: joinSegs (s₂ :: rest₂)) ++ '/' :: joinSegs y
      rw [h]
      simp

theorem cleanChars_good_append (la lb : List Char)
    (ha : (splitSegs la).all okSeg = true ∨
      (∃ ra, la = '/' :: ra ∧ (splitSegs ra).all okSeg = true))
    (hb : (splitSegs lb).all okSeg = true) :
    cleanChars (la ++ '/' :: lb) = la ++ '/' :: lb := by
  have hbne : splitSegs lb ≠ [] := segsAux_ne_nil _ _
  rcases ha with ha | ⟨ra, rfl, ha⟩
  · -- relative root: its first segment is slash-free and nonempty,
    -- so the whole string neither is empty nor starts with '/'
    have hane : la ≠ [] := by
      intro h
      rw [h] at ha
      simp [splitSegs, segsAux, okSeg] at ha
    cases hd : la with
    | nil => exact absurd hd hane
    | cons c rest =>
      have hc : c ≠ '/' := by
        intro h
        subst h
        rw [hd] at ha
        simp [splitSegs, segsAux, okSeg] at ha
      subst hd
      have hsplit : splitSegs ((c :: rest) ++ '/' :: lb) = splitSegs (c :: rest) ++ splitSegs lb :=
        segsAux_append_slash _ _ _
      have hall : (splitSegs (c :: rest) ++ splitSegs lb).all okSeg = true := by
        rw [List.all_append, ha, hb]
        rfl
      have hane' : splitSegs (c :: rest) ≠ [] := segsAux_ne_nil _ _
      have hbody : joinSegs ((((splitSegs ((c :: rest) ++ '/' :: lb)).foldl
          (stepSeg false) []).reverse)) = (c :: rest) ++ '/' :: lb := by
        rw [hsplit, foldl_stepSeg_ok _ _ _ hall]
        simp only [List.append_nil, List.reverse_reverse]
        rw [joinSegs_append _ _ hane' hbne]
        unfold splitSegs
        rw [joinSegs_segsAux, joinSegs_segsAux]
        simp
      unfold cleanChars
      rw [if_neg (by simp), if_neg (by simp [hc]), hbody, if_neg (by simp)]
  · -- rooted root "/ra": leading empty segment is skipped by stepSeg
    have hsplit : splitSegs (('/' :: ra) ++ '/' :: lb)
        = [] :: (splitSegs ra ++ splitSegs lb) := by
      show segsAux ('/' :: (ra ++ '/' :: lb)) [] = _
      rw [segsAux]
      rw [if_pos rfl]
      rw [segsAux_append_slash]
      rfl
    have hall : (splitSegs ra ++ splitSegs lb).all okSeg = true := by
      rw [List.all_append, ha, hb]
      rfl
    have hrane : splitSegs ra ≠ [] := segsAux_ne_nil _ _
    have hbody : joinSegs ((((splitSegs (('/' :: ra) ++ '/' :: lb)).foldl
        (stepSeg true) []).reverse)) = ra ++ '/' :: lb := by
      rw [hsplit]
      simp only [List.foldl_cons]
      have hstep : stepSeg true [] [] = [] := by simp [stepSeg]
      rw [hstep, foldl_stepSeg_ok _ _ _ hall]
      simp only [List.append_nil, List.reverse_reverse]
      rw [joinSegs_append _ _ hrane hbne]
      unfold splitSegs
      rw [joinSegs_segsAux, joinSegs_segsAux]
      simp
    unfold cleanChars
    rw [if_neg (by simp), if_pos (by simp), hbody]
    simp

theorem joinPath_good (a b : String) (ha : goodPath a = true) (hb : goodRel b = true) :
    joinPath a b = a ++ "/" ++ b := by
  have hane : a ≠ "" := by
    intro h
    subst h
    unfold goodPath goodRel goodAbs at ha
    simp [splitSegs, segsAux, okSeg] at ha
  have hbne : b ≠ "" := by
    intro h
    subst h
    unfold goodRel at hb
    simp [splitSegs, segsAux, okSeg] at hb
  unfold joinPath
  rw [if_neg hane, if_neg hbne]
  apply String.ext
  show cleanChars (a ++ "/" ++ b).data = (a ++ "/" ++ b).data
  have hdata : (a ++ "/" ++ b).data = a.data ++ '/' :: b.data := by
    simp [String.data_append]
  rw [hdata]
  apply cleanChars_good_append
  · unfold goodPath goodRel goodAbs at ha
    simp only [Bool.or_eq_true, Bool.and_eq_true, beq_iff_eq] at ha
    rcases ha with ha | ⟨hhead, htail⟩
    · exact Or.inl ha
    · refine Or.inr ?_
      cases hd : a.data with
      | nil => rw [hd] at hhead; simp at hhead
      | cons c rest =>
        rw [hd] at hhead htail
        simp only [List.head?_cons, Option.some_inj] at hhead
        subst hhead
        exact ⟨rest, rfl, htail⟩
  · exact hb

@[simp] theorem cmdEvents_append (l₁ l₂ : List Event) :
    cmdEvents (l₁ ++ l₂) = cmdEvents l₁ ++ cmdEvents l₂ := by
  simp [cmdEvents, List.filter_append]

@[simp] theorem cmdEvents_nil : cmdEvents [] = [] := rfl

theorem cmdEvents_cons (e : Event) (l : List Event) :
    cmdEvents (e :: l) = if isCmd e then e :: cmdEvents l else cmdEvents l := by
  simp [cmdEvents, List.filter_cons]

@[simp] theorem emit_trace (st : St) (e : Event) : (emit st e).trace = st.trace ++ [e] := rfl

@[simp] theorem emit_cwd (st : St) (e : Event) : (emit st e).cwd = st.cwd := rfl

@[simp] theorem emit_remotes (st : St) (e : Event) : (emit st e).remotes = st.remotes := rfl

@[simp] theorem setRemote_trace (st : St) (p u : String) :
    (setRemote st p u).trace = st.trace := rfl

@[simp] theorem setRemote_cwd (st : St) (p u : String) :
    (setRemote st p u).cwd = st.cwd := rfl

theorem cmdEvents_finishChdirBack (env : Env) (st : St) (w : String) :
    cmdEvents (finishChdirBack env st w).trace = cmdEvents st.trace := by
  unfold finishChdirBack
  cases env.chdirErr w <;> simp [cmdEvents_cons, isCmd]

theorem finishChdirBack_remotes (env : Env) (st : St) (w : String) :
    (finishChdirBack env st w).remotes = st.remotes := by
  unfold finishChdirBack
  cases env.chdirErr w <;> rfl

theorem finishChdirBack_cwd_ok (env : Env) (st : St) (w : String)
    (h : env.chdirErr w = none) : (finishChdirBack env st w).cwd = w := by
  unfold finishChdirBack
  rw [h]

theorem processRepo_cmds (env : Env) (t f u : String) (st : St) (r : Repo) :
    cmdEvents (processRepo env t f u st r).trace = cmdEvents st.trace ++ repoCmds env t f u r := by
  unfold processRepo repoCmds
  cases h1 : env.statRes (backupPathOf f r.fullName) with
  | notExists =>
    simp only [h1]
    cases h2 : env.runOut "" "git"
        (cloneArgsOf (authCloneURL u t r.fullName) (backupPathOf f r.fullName)) with
    | some e => simp [cmdEvents_cons, isCmd]
    | none =>
      simp only [h2]
      cases h3 : env.getwdErr with
      | some e => simp [cmdEvents_cons, isCmd]
      | none =>
        simp only [h3]
        cases h4 : env.chdirErr (backupPathOf f r.fullName) with
        | some e => simp [cmdEvents_cons, isCmd]
        | none =>
          simp only [h4]
          split <;> simp [cmdEvents_finishChdirBack, cmdEvents_cons, isCmd]
  | found =>
    simp only [h1]
    cases h3 : env.getwdErr with
    | some e => simp [cmdEvents_cons, isCmd]
    | none =>
      simp only [h3]
      cases h4 : env.chdirErr (backupPathOf f r.fullName) with
      | some e => simp [cmdEvents_cons, isCmd]
      | none =>
        simp only [h4]
        cases h5 : (env.run (backupPathOf f r.fullName) "git"
            (setUrlArgs (authCloneURL u t r.fullName))).2 with
        | some e => simp [h5, cmdEvents_finishChdirBack, cmdEvents_cons, isCmd]
        | none =>
          simp only [h5]
          split <;> simp [cmdEvents_finishChdirBack, cmdEvents_cons, isCmd]
  | otherErr => simp [h1, cmdEvents_cons, isCmd]

/-! ## Working-directory and remote-URL lemmas for one iteration -/

theorem processRepo_cwd (env : Env) (t f u : String) (st : St) (r : Repo)
    (h : env.chdirErr st.cwd = none) :
    (processRepo env t f u st r).cwd = st.cwd := by
  unfold processRepo
  cases h1 : env.statRes (backupPathOf f r.fullName) with
  | notExists =>
    simp only [h1]
    cases h2 : env.runOut "" "git"
        (cloneArgsOf (authCloneURL u t r.fullName) (backupPathOf f r.fullName)) with
    | some e => rfl
    | none =>
      simp only [h2]
      cases h3 : env.getwdErr with
      | some e => rfl
      | none =>
        simp only [h3]
        cases h4 : env.chdirErr (backupPathOf f r.fullName) with
        | some e => rfl
        | none =>
          simp only [h4]
          split <;> exact finishChdirBack_cwd_ok _ _ _ h
  | found =>
    simp only [h1]
    cases h3 : env.getwdErr with
    | some e => rfl
    | none =>
      simp only [h3]
      cases h4 : env.chdirErr (backupPathOf f r.fullName) with
      | some e => rfl
      | none =>
        simp only [h4]
        cases h5 : (env.run (backupPathOf f r.fullName) "git"
            (setUrlArgs (authCloneURL u t r.fullName))).2 with
        | some e =>
          simp only [h5]
          exact finishChdirBack_cwd_ok _ _ _ h
        | none =>
          simp only [h5]
          split <;> exact finishChdirBack_cwd_ok _ _ _ h
  | otherErr =>
    simp only [h1]
    rfl

theorem getRemote_finishChdirBack (env : Env) (st : St) (w p : String) :
    getRemote (finishChdirBack env st w) p = getRemote st p := by
  unfold getRemote
  rw [finishChdirBack_remotes]

theorem getRemote_setRemote_same (st : St) (p v : String) :
    getRemote (setRemote st p v) p = some v := by
  simp [getRemote, setRemote, List.lookup]

theorem processRepo_remote (env : Env) (t f u : String) (st : St) (r : Repo)
    (hgetwd : env.getwdErr = none)
    (hchdir : env.chdirErr (backupPathOf f r.fullName) = none)
    (hset : (env.run (backupPathOf f r.fullName) "git"
      (setUrlArgs (unauthCloneURL r.fullName))).2 = none) :
    getRemote (processRepo env t f u st r) (backupPathOf f r.fullName)
      = getRemote st (backupPathOf f r.fullName)
    ∨ getRemote (processRepo env t f u st r) (backupPathOf f r.fullName)
      = some (unauthCloneURL r.fullName) := by
  unfold processRepo
  cases h1 : env.statRes (backupPathOf f r.fullName) with
  | notExists =>
    simp only [h1]
    cases h2 : env.runOut "" "git"
        (cloneArgsOf (authCloneURL u t r.fullName) (backupPathOf f r.fullName)) with
    | some e => exact Or.inl rfl
    | none =>
      simp only [h2, hgetwd, hchdir, hset, if_pos]
      right
      rw [getRemote_finishChdirBack]
      exact getRemote_setRemote_same _ _ _
  | found =>
    simp only [h1, hgetwd, hchdir]
    cases h5 : (env.run (backupPathOf f r.fullName) "git"
        (setUrlArgs (authCloneURL u t r.fullName))).2 with
    | some e =>
      simp only [h5]
      left
      rw [getRemote_finishChdirBack]
      rfl
    | none =>
      simp only [h5, hset, if_pos]
      right
      rw [getRemote_finishChdirBack]
      exact getRemote_setRemote_same _ _ _
  | otherErr =>
    simp only [h1]
    exact Or.inl rfl

theorem fetchAll_chain {env : Env} {p : Nat} {ps : List (Nat × List Repo)}
    (hch : Chain env p ps) :
    ∀ fuel, ps.length ≤ fuel → ∀ acc st,
    fetchAll env fuel p acc st
      = ({ st with trace := st.trace ++ ps.map (fun q => Event.listCall q.1 100) },
         .ok (acc ++ (ps.map Prod.snd).flatten)) := by
  induction hch with
  | single h =>
    intro fuel hf acc st
    cases fuel with
    | zero => simp at hf
    | succ n =>
      simp [fetchAll, h, emit]
  | more h hne hch ih =>
    intro fuel hf acc st
    cases fuel with
    | zero => simp at hf
    | succ n =>
      simp only [fetchAll, h, emit]
      rw [if_neg hne]
      rw [ih n (by simpa using hf) (acc ++ _) _]
      simp

theorem fetchAll_err {env : Env} {p : Nat} {ps : List Nat} {e : String}
    (herr : ErrAt env p ps e) :
    ∀ fuel, ps.length ≤ fuel → ∀ acc st,
    fetchAll env fuel p acc st
      = ({ st with trace := st.trace ++ ps.map (fun q => Event.listCall q 100) },
         .error ("Error listing repositories: " ++ e)) := by
  induction herr with
  | here h =>
    intro fuel hf acc st
    cases fuel with
    | zero => simp at hf
    | succ n =>
      simp [fetchAll, h, emit]
  | more h hne herr ih =>
    intro fuel hf acc st
    cases fuel with
    | zero => simp at hf
    | succ n =>
      simp only [fetchAll, h, emit]
      rw [if_neg hne]
      rw [ih n (by simpa using hf) (acc ++ _) _]
      simp

/-! ## Substring and path-derivation lemmas -/

theorem isPrefixOf_self (l : List Char) : l.isPrefixOf l = true := by
  induction l with
  | nil => rfl
  | cons c rest ih => simp [List.isPrefixOf, ih]

theorem hasSubAux_append (pre pat : List Char) : hasSubAux pat (pre ++ pat) = true := by
  induction pre with
  | nil =>
    cases pat with
    | nil => rfl
    | cons c r => simp [hasSubAux, isPrefixOf_self]
  | cons c r ih => simp [hasSubAux, ih]

/-- A string's suffix occurs in it as a substring. -/
theorem strHasSub_append_right (a b : String) : strHasSub (a ++ b) b = true := by
  unfold strHasSub
  rw [String.data_append]
  exact hasSubAux_append _ _

theorem segsAux_no_slash (l cur : List Char) (h : l.contains '/' = false) :
    segsAux l cur = [cur.reverse ++ l] := by
  induction l generalizing cur with
  | nil => simp [segsAux]
  | cons c rest ih =>
    simp only [List.contains_cons, Bool.or_eq_false_iff] at h
    simp only [segsAux]
    split
    · rename_i hc
      subst hc
      simp at h
    · rw [ih _ h.2]
      simp

theorem goodRel_two_segs (x y : String) (hx : okSeg x.data = true) (hy : okSeg y.data = true) :
    goodRel (x ++ "/" ++ y) = true := by
  unfold goodRel
  have hd : (x ++ "/" ++ y).data = x.data ++ '/' :: y.data := by
    simp [String.data_append]
  rw [hd]
  unfold splitSegs
  rw [segsAux_append_slash]
  rw [segsAux_no_slash _ _ (okSeg_spec hx).2.2, segsAux_no_slash _ _ (okSeg_spec hy).2.2]
  simp [hx, hy]

/-- The backup path of `owner/name` under a backup root that path cleaning
leaves untouched is literally `<root>/<owner>/<name>.git`. -/
theorem backupPathOf_eq (folder owner nm : String)
    (hf : goodPath folder = true) (ho : okSeg owner.data = true)
    (hn : okSeg (nm ++ ".git").data = true) :
    backupPathOf folder (owner ++ "/" ++ nm)
      = folder ++ "/" ++ owner ++ "/" ++ nm ++ ".git" := by
  unfold backupPathOf
  have h1 : (owner ++ "/" ++ nm) ++ ".git" = owner ++ "/" ++ (nm ++ ".git") := by
    apply String.ext
    simp [String.data_append]
  rw [h1, joinPath_good _ _ hf (goodRel_two_segs _ _ ho hn)]
  apply String.ext
  simp [String.data_append]

/-! ## Run-level composition lemmas -/

theorem foldl_processRepo_cmds (env : Env) (t f u : String) (repos : List Repo) :
    ∀ st : St,
    cmdEvents (repos.foldl (processRepo env t f u) st).trace
      = cmdEvents st.trace ++ repos.flatMap (repoCmds env t f u) := by
  induction repos with
  | nil => intro st; simp
  | cons r rest ih =>
    intro st
    simp only [List.foldl_cons, List.flatMap_cons]
    rw [ih, processRepo_cmds]
    simp

theorem foldl_processRepo_cwd (env : Env) (t f u : String) (repos : List Repo) :
    ∀ st : St, env.chdirErr st.cwd = none →
    (repos.foldl (processRepo env t f u) st).cwd = st.cwd := by
  induction repos with
  | nil => intro st h; rfl
  | cons r rest ih =>
    intro st h
    have h1 : (processRepo env t f u st r).cwd = st.cwd := processRepo_cwd env t f u st r h
    simp only [List.foldl_cons]
    rw [ih (processRepo env t f u st r) (by rw [h1]; exact h), h1]

/-- Unfolding of a run whose one-time setup and enumeration succeed: the
loop runs over the concatenation of the pages, and the run returns
success. -/
theorem runApp_ok (env : Env) (fuel : Nat) (token backupFolder username : String) (st : St)
    (ps : List (Nat × List Repo))
    (htok : token ≠ "")
    (hmk : env.mkdirErr (if backupFolder = "" then "/ghbackup" else backupFolder) = none)
    (hgc : (env.run "" "git" gcArgs).2 = none)
    (huser : env.getUser = .ok username)
    (hch : Chain env 0 ps)
    (hfuel : ps.length ≤ fuel) :
    runApp env fuel token backupFolder st
      = (((ps.map Prod.snd).flatten).foldl
          (processRepo env token (if backupFolder = "" then "/ghbackup" else backupFolder) username)
          { st with trace := st.trace
              ++ [Event.mkdirCall (if backupFolder = "" then "/ghbackup" else backupFolder),
                  Event.runCmd "" "git" gcArgs, Event.userCall]
              ++ ps.map (fun q => Event.listCall q.1 100) },
        .ok ()) := by
  unfold runApp
  rw [if_neg htok]
  simp only [hmk]
  cases hrun : env.run "" "git" gcArgs with
  | mk out err =>
    rw [hrun] at hgc
    simp only at hgc
    subst hgc
    simp only [hrun, huser]
    rw [fetchAll_chain hch fuel hfuel [] _]
    simp [emit, List.append_assoc]

theorem cmdEvents_listCalls (ps : List (Nat × List Repo)) :
    cmdEvents (ps.map (fun q => Event.listCall q.1 100)) = [] := by
  induction ps with
  | nil => rfl
  | cons q rest ih => simp [cmdEvents_cons, isCmd, ih]

theorem cmdEvents_listCallsN (ps : List Nat) :
    cmdEvents (ps.map (fun q => Event.listCall q 100)) = [] := by
  induction ps with
  | nil => rfl
  | cons q rest ih => simp [cmdEvents_cons, isCmd, ih]

/-! ## The claims -/

/-- C8: for every owner username `u`, token `t` and repository full name
`o/r`, the authenticated clone URL built by the synchronizer is exactly
`https://u:t@github.com/o/r.git`, and the unauthenticated form is exactly
`https://github.com/o/r.git`. -/
theorem c8_url_construction (u t o r : String) :
    authCloneURL u t (o ++ "/" ++ r)
      = "https://" ++ u ++ ":" ++ t ++ "@github.com/" ++ o ++ "/" ++ r ++ ".git"
    ∧ unauthCloneURL (o ++ "/" ++ r)
      = "https://github.com/" ++ o ++ "/" ++ r ++ ".git" := by
  constructor <;>
    (apply String.ext
     simp [authCloneURL, unauthCloneURL, String.data_append])

/-- C9: a run started with an empty credential returns the fatal
`GITHUB_SECRET` error with the state untouched — in particular no API
call and no filesystem call was recorded — and the message mentions the
credential requirement. -/
theorem c9_empty_credential (env : Env) (fuel : Nat) (token backupFolder : String) (st : St)
    (h : token = "") :
    runApp env fuel token backupFolder st
      = (st, .error "Error: GITHUB_SECRET environment variable is not set.")
    ∧ strHasSub "Error: GITHUB_SECRET environment variable is not set." "GITHUB_SECRET"
      = true := by
  subst h
  refine ⟨?_, by decide⟩
  unfold runApp
  rw [if_pos rfl]

theorem c9_witness :
    ("" : String) = ""
    ∧ (runApp envOkClone 1 "" "/b" st0
        = (st0, .error "Error: GITHUB_SECRET environment variable is not set.")
      ∧ strHasSub "Error: GITHUB_SECRET environment variable is not set." "GITHUB_SECRET"
        = true) :=
  ⟨rfl, c9_empty_credential envOkClone 1 "" "/b" st0 rfl⟩

/-- C7: provided changing back to the surrounding working directory
succeeds, one repository iteration — and hence the whole loop — leaves
the working directory exactly where it was, on every branch including
the failure ones. -/
theorem c7_cwd_restored (env : Env) (token backupFolder username : String) (st : St)
    (repo : Repo) (repos : List Repo)
    (h : env.chdirErr st.cwd = none) :
    (processRepo env token backupFolder username st repo).cwd = st.cwd
    ∧ (repos.foldl (processRepo env token backupFolder username) st).cwd = st.cwd :=
  ⟨processRepo_cwd _ _ _ _ _ _ h, foldl_processRepo_cwd _ _ _ _ _ _ h⟩

theorem c7_witness :
    envGetwdFail.chdirErr st0.cwd = none
    ∧ ((processRepo envGetwdFail "tok" "/b" "testuser" st0 repoA).cwd = st0.cwd
      ∧ ([repoA, repoB].foldl (processRepo envGetwdFail "tok" "/b" "testuser") st0).cwd
        = st0.cwd) :=
  ⟨rfl, c7_cwd_restored envGetwdFail "tok" "/b" "testuser" st0 repoA [repoA, repoB] rfl⟩

/-- C5: under a terminating pagination dialogue the lister requests the
pages in order with the fixed page size 100, returns exactly the
concatenation of the pages in fetch order, and — when the identity's
pages are individually duplicate-free and pairwise disjoint — the result
is duplicate-free. -/
theorem c5_lister (env : Env) (fuel : Nat) (st : St) (ps : List (Nat × List Repo))
    (hch : Chain env 0 ps) (hfuel : ps.length ≤ fuel) :
    fetchAll env fuel 0 [] st
      = ({ st with trace := st.trace ++ ps.map (fun q => Event.listCall q.1 100) },
         .ok ((ps.map Prod.snd).flatten))
    ∧ ((∀ l ∈ ps.map Prod.snd, l.Nodup) → (ps.map Prod.snd).Pairwise List.Disjoint →
        ((ps.map Prod.snd).flatten).Nodup) := by
  refine ⟨by simpa using fetchAll_chain hch fuel hfuel [] st, ?_⟩
  intro h1 h2
  exact List.nodup_flatten.mpr ⟨h1, h2⟩

theorem c5_witness :
    Chain envTwoPages 0 [(0, [repoA]), (2, [repoB])]
    ∧ ([(0, [repoA]), (2, [repoB])] : List (Nat × List Repo)).length ≤ 2
    ∧ (fetchAll envTwoPages 2 0 [] st0
        = ({ st0 with trace := st0.trace
              ++ [(0, [repoA]), (2, [repoB])].map (fun q => Event.listCall q.1 100) },
           .ok (([(0, [repoA]), (2, [repoB])].map Prod.snd).flatten))
      ∧ ((∀ l ∈ [(0, [repoA]), (2, [repoB])].map Prod.snd, l.Nodup) →
          ([(0, [repoA]), (2, [repoB])].map Prod.snd).Pairwise List.Disjoint →
          (([(0, [repoA]), (2, [repoB])].map Prod.snd).flatten).Nodup)) :=
  ⟨Chain.more rfl (by decide) (Chain.single rfl), by decide,
    c5_lister envTwoPages 2 st0 [(0, [repoA]), (2, [repoB])]
      (Chain.more rfl (by decide) (Chain.single rfl)) (by decide)⟩

/-- C6: after a successful one-time setup, a failing identity lookup —
or a failing repository listing on any page after a successful lookup —
makes the run return a fatal error containing the underlying failure
message, with no per-repository command issued (the only command in the
trace is the global safe-directory config). -/
theorem c6_fatal_enumeration (env : Env) (fuel : Nat) (token backupFolder username : String)
    (st : St)
    (htok : token ≠ "")
    (hmk : env.mkdirErr (if backupFolder = "" then "/ghbackup" else backupFolder) = none)
    (hgc : (env.run "" "git" gcArgs).2 = none) :
    (∀ e, env.getUser = .error e →
      (runApp env fuel token backupFolder st).2
          = .error ("Error getting authenticated user: " ++ e)
      ∧ strHasSub ("Error getting authenticated user: " ++ e) e = true
      ∧ cmdEvents (runApp env fuel token backupFolder st).1.trace
          = cmdEvents st.trace ++ [Event.runCmd "" "git" gcArgs])
    ∧ (∀ e ps, env.getUser = .ok username → ErrAt env 0 ps e → ps.length ≤ fuel →
      (runApp env fuel token backupFolder st).2
          = .error ("Error listing repositories: " ++ e)
      ∧ strHasSub ("Error listing repositories: " ++ e) e = true
      ∧ cmdEvents (runApp env fuel token backupFolder st).1.trace
          = cmdEvents st.trace ++ [Event.runCmd "" "git" gcArgs]) := by
  constructor
  · intro e huser
    unfold runApp
    rw [if_neg htok]
    simp only [hmk]
    cases hrun : env.run "" "git" gcArgs with
    | mk out err =>
      rw [hrun] at hgc
      simp only at hgc
      subst hgc
      rw [huser]
      refine ⟨rfl, strHasSub_append_right _ _, ?_⟩
      simp [emit, cmdEvents_cons, isCmd]
  · intro e ps huser herr hfuel
    unfold runApp
    rw [if_neg htok]
    simp only [hmk]
    cases hrun : env.run "" "git" gcArgs with
    | mk out err =>
      rw [hrun] at hgc
      simp only at hgc
      subst hgc
      rw [huser]
      rw [fetchAll_err herr fuel hfuel [] _]
      refine ⟨rfl, strHasSub_append_right _ _, ?_⟩
      simp [emit, cmdEvents_cons, isCmd, cmdEvents_listCallsN]

theorem c6_witness :
    ("tok" : String) ≠ ""
    ∧ envUserFail.mkdirErr (if ("/b" : String) = "" then "/ghbackup" else "/b") = none
    ∧ (envUserFail.run "" "git" gcArgs).2 = none
    ∧ envUserFail.getUser = .error "failed to get user"
    ∧ ((runApp envUserFail 1 "tok" "/b" st0).2
        = .error ("Error getting authenticated user: " ++ "failed to get user")
      ∧ strHasSub ("Error getting authenticated user: " ++ "failed to get user")
          "failed to get user" = true
      ∧ cmdEvents (runApp envUserFail 1 "tok" "/b" st0).1.trace
          = cmdEvents st0.trace ++ [Event.runCmd "" "git" gcArgs]) :=
  ⟨by decide, rfl, rfl, rfl,
    (c6_fatal_enumeration envUserFail 1 "tok" "/b" "testuser" st0 (by decide) rfl rfl).1
      "failed to get user" rfl⟩

/-- C10: after successful setup and enumeration, the command trace of the
run is the global config followed by each listed repository's commands,
in exactly the order obtained by concatenating the pages in fetch order —
every command of the i-th repository precedes every command of the
(i+1)-th. -/
theorem c10_sequential_order (env : Env) (fuel : Nat) (token backupFolder username : String)
    (st : St) (ps : List (Nat × List Repo))
    (htok : token ≠ "")
    (hmk : env.mkdirErr (if backupFolder = "" then "/ghbackup" else backupFolder) = none)
    (hgc : (env.run "" "git" gcArgs).2 = none)
    (huser : env.getUser = .ok username)
    (hch : Chain env 0 ps)
    (hfuel : ps.length ≤ fuel) :
    cmdEvents (runApp env fuel token backupFolder st).1.trace
      = cmdEvents st.trace
        ++ Event.runCmd "" "git" gcArgs
          :: ((ps.map Prod.snd).flatten).flatMap
            (repoCmds env token (if backupFolder = "" then "/ghbackup" else backupFolder)
              username) := by
  rw [runApp_ok env fuel token backupFolder username st ps htok hmk hgc huser hch hfuel]
  simp [foldl_processRepo_cmds, cmdEvents_cons, cmdEvents_listCalls, isCmd]

theorem c10_witness :
    ("tok" : String) ≠ ""
    ∧ envTwoPages.mkdirErr (if ("/b" : String) = "" then "/ghbackup" else "/b") = none
    ∧ (envTwoPages.run "" "git" gcArgs).2 = none
    ∧ envTwoPages.getUser = .ok "testuser"
    ∧ Chain envTwoPages 0 [(0, [repoA]), (2, [repoB])]
    ∧ ([(0, [repoA]), (2, [repoB])] : List (Nat × List Repo)).length ≤ 2
    ∧ cmdEvents (runApp envTwoPages 2 "tok" "/b" st0).1.trace
      = cmdEvents st0.trace
        ++ Event.runCmd "" "git" gcArgs
          :: (([(0, [repoA]), (2, [repoB])].map Prod.snd).flatten).flatMap
            (repoCmds envTwoPages "tok" (if ("/b" : String) = "" then "/ghbackup" else "/b")
              "testuser") :=
  ⟨by decide, rfl, rfl, rfl, Chain.more rfl (by decide) (Chain.single rfl), by decide,
    c10_sequential_order envTwoPages 2 "tok" "/b" "testuser" st0
      [(0, [repoA]), (2, [repoB])] (by decide) rfl rfl rfl
      (Chain.more rfl (by decide) (Chain.single rfl)) (by decide)⟩

/-- C4: per-repository failures never make the run fail.  With a two-item
listing where repository `A`'s clone fails, the run result is still
success, `A`'s remaining steps are skipped (its only command is the
clone attempt) and `B` still receives its full command sequence. -/
theorem c4_failure_isolation (env : Env) (fuel : Nat)
    (token backupFolder username eA : String) (st : St) (A B : Repo)
    (hback : backupFolder ≠ "")
    (htok : token ≠ "")
    (hmk : env.mkdirErr backupFolder = none)
    (hgc : (env.run "" "git" gcArgs).2 = none)
    (huser : env.getUser = .ok username)
    (hlist : env.listRepos 0 = .ok ([A, B], 0))
    (hfuel : 1 ≤ fuel)
    (hstatA : env.statRes (backupPathOf backupFolder A.fullName) = .notExists)
    (hcloneA : env.runOut "" "git" (cloneArgsOf (authCloneURL username token A.fullName)
        (backupPathOf backupFolder A.fullName)) = some eA) :
    (runApp env fuel token backupFolder st).2 = .ok ()
    ∧ cmdEvents (runApp env fuel token backupFolder st).1.trace
      = cmdEvents st.trace
        ++ Event.runCmd "" "git" gcArgs
          :: Event.runOutCmd "" "git" (cloneArgsOf (authCloneURL username token A.fullName)
              (backupPathOf backupFolder A.fullName))
          :: repoCmds env token backupFolder username B := by
  have h := runApp_ok env fuel token backupFolder username st [(0, [A, B])] htok
    (by rw [if_neg hback]; exact hmk) hgc huser (Chain.single hlist) (by simpa using hfuel)
  rw [if_neg hback] at h
  rw [h]
  have hA : repoCmds env token backupFolder username A
      = [Event.runOutCmd "" "git" (cloneArgsOf (authCloneURL username token A.fullName)
          (backupPathOf backupFolder A.fullName))] := by
    unfold repoCmds
    simp [hstatA, hcloneA]
  refine ⟨rfl, ?_⟩
  simp only [List.map_cons, List.map_nil, List.flatten_cons, List.flatten_nil,
    List.append_nil, List.foldl_cons, List.foldl_nil]
  rw [processRepo_cmds, processRepo_cmds, hA]
  simp [cmdEvents_cons, isCmd]

theorem c4_witness :
    ("/b" : String) ≠ ""
    ∧ ("tok" : String) ≠ ""
    ∧ envCloneAFails.mkdirErr "/b" = none
    ∧ (envCloneAFails.run "" "git" gcArgs).2 = none
    ∧ envCloneAFails.getUser = .ok "testuser"
    ∧ envCloneAFails.listRepos 0 = .ok ([repoA, repoB], 0)
    ∧ (1 : Nat) ≤ 1
    ∧ envCloneAFails.statRes (backupPathOf "/b" repoA.fullName) = .notExists
    ∧ envCloneAFails.runOut "" "git" (cloneArgsOf (authCloneURL "testuser" "tok" repoA.fullName)
        (backupPathOf "/b" repoA.fullName)) = some "clone failed"
    ∧ ((runApp envCloneAFails 1 "tok" "/b" st0).2 = .ok ()
      ∧ cmdEvents (runApp envCloneAFails 1 "tok" "/b" st0).1.trace
        = cmdEvents st0.trace
          ++ Event.runCmd "" "git" gcArgs
            :: Event.runOutCmd "" "git" (cloneArgsOf (authCloneURL "testuser" "tok" repoA.fullName)
                (backupPathOf "/b" repoA.fullName))
            :: repoCmds envCloneAFails "tok" "/b" "testuser" repoB) :=
  ⟨by decide, by decide, rfl, rfl, rfl, rfl, by decide, rfl, by decide,
    c4_failure_isolation envCloneAFails 1 "tok" "/b" "testuser" "clone failed" st0 repoA repoB
      (by decide) (by decide) rfl rfl rfl rfl (by decide) rfl (by decide)⟩

/-- C2: for a run listing a repository whose backup path does not exist
and whose clone, `Getwd` and `Chdir` steps succeed, the exact command
sequence issued is the once-per-run global safe-directory config, the
mirror clone with the authenticated URL and the derived path, the LFS
fetch, and the `remote set-url` to the unauthenticated URL, the last two
directed at the derived path; and the derived path of `owner/name` is
literally `<backup-root>/<owner>/<name>.git`. -/
theorem c2_clone_sequence (env : Env) (fuel : Nat)
    (token backupFolder username : String) (st : St) (repo : Repo) (owner nm : String)
    (hback : backupFolder ≠ "")
    (htok : token ≠ "")
    (hmk : env.mkdirErr backupFolder = none)
    (hgc : (env.run "" "git" gcArgs).2 = none)
    (huser : env.getUser = .ok username)
    (hlist : env.listRepos 0 = .ok ([repo], 0))
    (hfuel : 1 ≤ fuel)
    (hstat : env.statRes (backupPathOf backupFolder repo.fullName) = .notExists)
    (hclone : env.runOut "" "git" (cloneArgsOf (authCloneURL username token repo.fullName)
        (backupPathOf backupFolder repo.fullName)) = none)
    (hgetwd : env.getwdErr = none)
    (hchdir : env.chdirErr (backupPathOf backupFolder repo.fullName) = none)
    (hname : repo.fullName = owner ++ "/" ++ nm)
    (hgood : goodPath backupFolder = true)
    (howner : okSeg owner.data = true)
    (hnm : okSeg (nm ++ ".git").data = true) :
    cmdEvents (runApp env fuel token backupFolder st).1.trace
      = cmdEvents st.trace ++
        [Event.runCmd "" "git" gcArgs,
         Event.runOutCmd "" "git" (cloneArgsOf (authCloneURL username token repo.fullName)
           (backupPathOf backupFolder repo.fullName)),
         Event.runOutCmd (backupPathOf backupFolder repo.fullName) "git" lfsArgs,
         Event.runCmd (backupPathOf backupFolder repo.fullName) "git"
           (setUrlArgs (unauthCloneURL repo.fullName))]
    ∧ backupPathOf backupFolder repo.fullName
        = backupFolder ++ "/" ++ owner ++ "/" ++ nm ++ ".git" := by
  have h := runApp_ok env fuel token backupFolder username st [(0, [repo])] htok
    (by rw [if_neg hback]; exact hmk) hgc huser (Chain.single hlist) (by simpa using hfuel)
  rw [if_neg hback] at h
  constructor
  · rw [h]
    simp only [List.map_cons, List.map_nil, List.flatten_cons, List.flatten_nil,
      List.append_nil, List.foldl_cons, List.foldl_nil]
    rw [processRepo_cmds]
    have hr : repoCmds env token backupFolder username repo
        = [Event.runOutCmd "" "git" (cloneArgsOf (authCloneURL username token repo.fullName)
             (backupPathOf backupFolder repo.fullName)),
           Event.runOutCmd (backupPathOf backupFolder repo.fullName) "git" lfsArgs,
           Event.runCmd (backupPathOf backupFolder repo.fullName) "git"
             (setUrlArgs (unauthCloneURL repo.fullName))] := by
      unfold repoCmds
      simp [hstat, hclone, hgetwd, hchdir]
    rw [hr]
    simp [cmdEvents_cons, isCmd]
  · rw [hname]
    exact backupPathOf_eq backupFolder owner nm hgood howner hnm

theorem c2_witness :
    ("/b" : String) ≠ ""
    ∧ ("tok" : String) ≠ ""
    ∧ envOkClone.mkdirErr "/b" = none
    ∧ (envOkClone.run "" "git" gcArgs).2 = none
    ∧ envOkClone.getUser = .ok "testuser"
    ∧ envOkClone.listRepos 0 = .ok ([repoA], 0)
    ∧ (1 : Nat) ≤ 1
    ∧ envOkClone.statRes (backupPathOf "/b" repoA.fullName) = .notExists
    ∧ envOkClone.runOut "" "git" (cloneArgsOf (authCloneURL "testuser" "tok" repoA.fullName)
        (backupPathOf "/b" repoA.fullName)) = none
    ∧ envOkClone.getwdErr = none
    ∧ envOkClone.chdirErr (backupPathOf "/b" repoA.fullName) = none
    ∧ repoA.fullName = "testuser" ++ "/" ++ "repo1"
    ∧ goodPath "/b" = true
    ∧ okSeg ("testuser" : String).data = true
    ∧ okSeg (("repo1" ++ ".git" : String)).data = true
    ∧ (cmdEvents (runApp envOkClone 1 "tok" "/b" st0).1.trace
        = cmdEvents st0.trace ++
          [Event.runCmd "" "git" gcArgs,
           Event.runOutCmd "" "git" (cloneArgsOf (authCloneURL "testuser" "tok" repoA.fullName)
             (backupPathOf "/b" repoA.fullName)),
           Event.runOutCmd (backupPathOf "/b" repoA.fullName) "git" lfsArgs,
           Event.runCmd (backupPathOf "/b" repoA.fullName) "git"
             (setUrlArgs (unauthCloneURL repoA.fullName))]
      ∧ backupPathOf "/b" repoA.fullName
          = "/b" ++ "/" ++ "testuser" ++ "/" ++ "repo1" ++ ".git") :=
  ⟨by decide, by decide, rfl, rfl, rfl, rfl, by decide, rfl, rfl, rfl, rfl, by decide,
    by decide, by decide, by decide,
    c2_clone_sequence envOkClone 1 "tok" "/b" "testuser" st0 repoA "testuser" "repo1"
      (by decide) (by decide) rfl rfl rfl rfl (by decide) rfl rfl rfl rfl (by decide)
      (by decide) (by decide) (by decide)⟩

/-- C3: for a run listing a repository whose backup path exists and whose
`Getwd`, `Chdir` and authenticated `remote set-url` steps succeed, the
exact command sequence issued is the once-per-run global safe-directory
config, the `remote set-url` to the authenticated URL, `remote update`,
the LFS fetch, and the `remote set-url` to the unauthenticated URL, all
directed at the derived path. -/
theorem c3_update_sequence (env : Env) (fuel : Nat)
    (token backupFolder username : String) (st : St) (repo : Repo)
    (hback : backupFolder ≠ "")
    (htok : token ≠ "")
    (hmk : env.mkdirErr backupFolder = none)
    (hgc : (env.run "" "git" gcArgs).2 = none)
    (huser : env.getUser = .ok username)
    (hlist : env.listRepos 0 = .ok ([repo], 0))
    (hfuel : 1 ≤ fuel)
    (hstat : env.statRes (backupPathOf backupFolder repo.fullName) = .found)
    (hgetwd : env.getwdErr = none)
    (hchdir : env.chdirErr (backupPathOf backupFolder repo.fullName) = none)
    (hauth : (env.run (backupPathOf backupFolder repo.fullName) "git"
        (setUrlArgs (authCloneURL username token repo.fullName))).2 = none) :
    cmdEvents (runApp env fuel token backupFolder st).1.trace
      = cmdEvents st.trace ++
        [Event.runCmd "" "git" gcArgs,
         Event.runCmd (backupPathOf backupFolder repo.fullName) "git"
           (setUrlArgs (authCloneURL username token repo.fullName)),
         Event.runOutCmd (backupPathOf backupFolder repo.fullName) "git" updArgs,
         Event.runOutCmd (backupPathOf backupFolder repo.fullName) "git" lfsArgs,
         Event.runCmd (backupPathOf backupFolder repo.fullName) "git"
           (setUrlArgs (unauthCloneURL repo.fullName))] := by
  have h := runApp_ok env fuel token backupFolder username st [(0, [repo])] htok
    (by rw [if_neg hback]; exact hmk) hgc huser (Chain.single hlist) (by simpa using hfuel)
  rw [if_neg hback] at h
  rw [h]
  simp only [List.map_cons, List.map_nil, List.flatten_cons, List.flatten_nil,
    List.append_nil, List.foldl_cons, List.foldl_nil]
  rw [processRepo_cmds]
  have hr : repoCmds env token backupFolder username repo
      = [Event.runCmd (backupPathOf backupFolder repo.fullName) "git"
           (setUrlArgs (authCloneURL username token repo.fullName)),
         Event.runOutCmd (backupPathOf backupFolder repo.fullName) "git" updArgs,
         Event.runOutCmd (backupPathOf backupFolder repo.fullName) "git" lfsArgs,
         Event.runCmd (backupPathOf backupFolder repo.fullName) "git"
           (setUrlArgs (unauthCloneURL repo.fullName))] := by
    unfold repoCmds
    simp [hstat, hgetwd, hchdir, hauth]
  rw [hr]
  simp [cmdEvents_cons, isCmd]

theorem c3_witness :
    ("/b" : String) ≠ ""
    ∧ ("tok" : String) ≠ ""
    ∧ envOkUpd.mkdirErr "/b" = none
    ∧ (envOkUpd.run "" "git" gcArgs).2 = none
    ∧ envOkUpd.getUser = .ok "testuser"
    ∧ envOkUpd.listRepos 0 = .ok ([repoA], 0)
    ∧ (1 : Nat) ≤ 1
    ∧ envOkUpd.statRes (backupPathOf "/b" repoA.fullName) = .found
    ∧ envOkUpd.getwdErr = none
    ∧ envOkUpd.chdirErr (backupPathOf "/b" repoA.fullName) = none
    ∧ (envOkUpd.run (backupPathOf "/b" repoA.fullName) "git"
        (setUrlArgs (authCloneURL "testuser" "tok" repoA.fullName))).2 = none
    ∧ cmdEvents (runApp envOkUpd 1 "tok" "/b" st0).1.trace
      = cmdEvents st0.trace ++
        [Event.runCmd "" "git" gcArgs,
         Event.runCmd (backupPathOf "/b" repoA.fullName) "git"
           (setUrlArgs (authCloneURL "testuser" "tok" repoA.fullName)),
         Event.runOutCmd (backupPathOf "/b" repoA.fullName) "git" updArgs,
         Event.runOutCmd (backupPathOf "/b" repoA.fullName) "git" lfsArgs,
         Event.runCmd (backupPathOf "/b" repoA.fullName) "git"
           (setUrlArgs (unauthCloneURL repoA.fullName))] :=
  ⟨by decide, by decide, rfl, rfl, rfl, rfl, by decide, rfl, rfl, rfl, rfl,
    c3_update_sequence envOkUpd 1 "tok" "/b" "testuser" st0 repoA
      (by decide) (by decide) rfl rfl rfl rfl (by decide) rfl rfl rfl rfl⟩

/-- C1 fails as stated: in a run where the clone succeeds but the
subsequent `Getwd` fails, the repository's processing finishes (the loop
continues) with the authenticated URL — containing the token — still
stored as the mirror's remote URL.  The third conjunct checks the token
does not occur in the unauthenticated URL, so its occurrence really is
the credential embedding. -/
theorem c1_counterexample :
    getRemote (runApp envGetwdFail 1 "tok" "/b" st0).1 (backupPathOf "/b" repoA.fullName)
      = some (authCloneURL "testuser" "tok" repoA.fullName)
    ∧ strHasSub (authCloneURL "testuser" "tok" repoA.fullName) "tok" = true
    ∧ strHasSub (unauthCloneURL repoA.fullName) "tok" = false := by
  refine ⟨by decide, by decide, by decide⟩

/-- C1 (amended): after processing a repository, the mirror's stored
remote URL contains no credential, provided the de-authentication is
reached and succeeds — `Getwd`, the chdir into the backup path and the
final unauthenticated `remote set-url` all succeed — the token does not
occur in the public URL, and the previously stored URL (if any) was
credential-free.  Clone, `remote update` and LFS failures are covered;
only failures that skip the de-authentication step are excluded. -/
theorem c1_deauth_invariant (env : Env) (token backupFolder username : String)
    (st : St) (repo : Repo)
    (hgetwd : env.getwdErr = none)
    (hchdir : env.chdirErr (backupPathOf backupFolder repo.fullName) = none)
    (hset : (env.run (backupPathOf backupFolder repo.fullName) "git"
      (setUrlArgs (unauthCloneURL repo.fullName))).2 = none)
    (hunauth : strHasSub (unauthCloneURL repo.fullName) token = false)
    (hold : ∀ u, getRemote st (backupPathOf backupFolder repo.fullName) = some u →
      strHasSub u token = false) :
    ∀ u, getRemote (processRepo env token backupFolder username st repo)
        (backupPathOf backupFolder repo.fullName) = some u →
      strHasSub u token = false := by
  intro u hu
  rcases processRepo_remote env token backupFolder username st repo hgetwd hchdir hset
    with h | h
  · exact hold u (by rw [← h]; exact hu)
  · rw [hu] at h
    injection h with h2
    rw [h2]
    exact hunauth

theorem c1_witness :
    envOkClone.getwdErr = none
    ∧ envOkClone.chdirErr (backupPathOf "/b" repoA.fullName) = none
    ∧ (envOkClone.run (backupPathOf "/b" repoA.fullName) "git"
        (setUrlArgs (unauthCloneURL repoA.fullName))).2 = none
    ∧ strHasSub (unauthCloneURL repoA.fullName) "tok" = false
    ∧ (∀ u, getRemote st0 (backupPathOf "/b" repoA.fullName) = some u →
        strHasSub u "tok" = false)
    ∧ (∀ u, getRemote (processRepo envOkClone "tok" "/b" "testuser" st0 repoA)
          (backupPathOf "/b" repoA.fullName) = some u →
        strHasSub u "tok" = false) :=
  ⟨rfl, rfl, rfl, by decide,
    fun u h => absurd h (by simp [getRemote, st0]),
    c1_deauth_invariant envOkClone "tok" "/b" "testuser" st0 repoA rfl rfl rfl (by decide)
      (fun u h => absurd h (by simp [getRemote, st0]))⟩
